import Mathlib

/-!
Verification of the arduino-cli build-configuration core: the layered
debug-property resolver (`commands/debug/debug_info.go`, function
`getDebugProperties`), the sketch source merger and incremental copy
primitives (`arduino/builder`: `sketchMergeSources`,
`sketchCopyAdditionalFiles`, `writeIfDifferent`, `PrepareSketchBuildPath`).

Strings are embedded as lists of characters (`Chars`).  The ordered
property store of `go-properties-orderedmap` is embedded as an association
list; the library itself is an external dependency whose sources are not
part of this repository, so its operations are modelled from the spec
(spec section 4.1), which states that insertion order is irrelevant to the
semantics.
-/

/-! ## Definitions -/

/-- Character-list representation of a Go string. -/
abbrev Chars := List Char

/-- Convert a Lean string literal to its character list. -/
def str (s : String) : Chars := s.data

/-- Boolean test that `p` is a leading segment of `l`. -/
def leadsWith : Chars → Chars → Bool
  | [], _ => true
  | _ :: _, [] => false
  | a :: as, b :: bs => a = b && leadsWith as bs

namespace Properties

/-- Modelled from the spec: the `go-properties-orderedmap` property store
(spec section 4.1), an ordered key→value mapping whose insertion order is
irrelevant to the semantics.  Embedded as an association list. -/
abbrev Store := List (Chars × Chars)

/-- Modelled from the spec: `Get(key)` — the value stored under a key, or
none when the key is absent. -/
def get {α : Type} : List (Chars × α) → Chars → Option α
  | [], _ => none
  | p :: st, k => if p.1 = k then some p.2 else get st k

/-- Modelled from the spec: `Set(key, value)` — overwrite or insert.
Since insertion order is irrelevant to the semantics, `set` is embedded as
remove-then-append. -/
def set {α : Type} : List (Chars × α) → Chars → α → List (Chars × α)
  | [], k, v => [(k, v)]
  | p :: st, k, v => if p.1 = k then set st k v else p :: set st k v

/-- Modelled from the spec: `Merge(other)` — for every key in `other`,
overwrite (or insert) in `self`; always succeeds. -/
def merge (st other : Store) : Store :=
  other.foldl (fun acc p => set acc p.1 p.2) st

/-- Modelled from the spec: `ContainsKey(key)`. -/
def containsKey (st : Store) (k : Chars) : Bool := (get st k).isSome

/-- `Get` with the Go library's empty-string default for absent keys. -/
def getD (st : Store) (k : Chars) : Chars := (get st k).getD []

/-- Modelled from the spec: `SubTree(root)` — the keys starting with
`root` followed by a dot, with that leading segment stripped. -/
def subTree (st : Store) (root : Chars) : Store :=
  match st with
  | [] => []
  | p :: rest =>
    if leadsWith (root ++ ['.']) p.1 then
      (p.1.drop (root.length + 1), p.2) :: subTree rest root
    else
      subTree rest root

/-- The value attached to the LAST entry of an association list carrying a
given key (the entry that survives a left-to-right `merge`). -/
def lastGet {α : Type} : List (Chars × α) → Chars → Option α
  | [], _ => none
  | p :: l, k =>
    match lastGet l k with
    | some v => some v
    | none => if p.1 = k then some p.2 else none

/-- An association list whose keys are pairwise distinct. -/
def NodupKeys {α : Type} (l : List (Chars × α)) : Prop := (l.map Prod.fst).Nodup

instance {α : Type} (l : List (Chars × α)) : Decidable (NodupKeys l) :=
  List.nodupDecidable (l.map Prod.fst)

/-- The value of `k` in the last store of a list that carries `k` (the
value surviving a left-to-right fold of `merge`). -/
def listLastGet : List Store → Chars → Option Chars
  | [], _ => none
  | l :: ls, k =>
    match listLastGet ls k with
    | some v => some v
    | none => lastGet l k

/-- Modelled from the spec: one pass of `ExpandPropsInString`, substituting
every `\x7bkey\x7d` occurrence with `Get(key)`, an absent key expanding to
the empty string.  The first argument is the scanner mode: `none` outside a
placeholder, `some acc` inside one with `acc` the reversed key read so far;
an unclosed placeholder is left literally. -/
def expandAux (st : Store) : Option Chars → Chars → Chars
  | none, [] => []
  | none, c :: rest =>
    if c = '{' then expandAux st (some []) rest
    else c :: expandAux st none rest
  | some acc, [] => '{' :: acc.reverse
  | some acc, c :: rest =>
    if c = '}' then getD st acc.reverse ++ expandAux st none rest
    else expandAux st (some (c :: acc)) rest

/-- One full substitution pass. -/
def expandOnce (st : Store) (s : Chars) : Chars := expandAux st none s

/-- Modelled from the spec: iterate substitution until no placeholder
changes or a fixed iteration bound is hit. -/
def expandIter (st : Store) : Nat → Chars → Chars
  | 0, s => s
  | n + 1, s =>
    let s2 := expandOnce st s
    if s2 = s then s else expandIter st n s2

/-- Modelled from the spec: `ExpandPropsInString` with the library's fixed
iteration bound. -/
def expandPropsInString (st : Store) (s : Chars) : Chars := expandIter st 10 s

end Properties

/-! ## Sketch source merger and incremental copy (`arduino/builder`) -/
/-- A sketch source or additional file: its path (as printed into
source-location markers, `file.String()` in the Go code), its path
relative to the sketch root (`sketch.FullPath.RelTo(file)`, the key used
for source overrides and copy destinations), and its on-disk content. -/
structure SketchFile where
  path : Chars
  relPath : Chars
  content : Chars
deriving DecidableEq

/-- A sketch: main file, ordered other top-level source files, and
additional (non-source) files. -/
structure Sketch where
  mainFile : SketchFile
  otherSketchFiles : List SketchFile
  additionalFiles : List SketchFile
deriving DecidableEq

namespace cpp

/-- Modelled from the spec: `cpp.QuoteString` as used for the
source-location marker `#line 1 "<original-file-path>"` — the path wrapped
in double quotes. -/
def QuoteString (s : Chars) : Chars := '"' :: (s ++ ['"'])

end cpp

/-- Whitespace characters matched by Go's regexp class `\s`
(tab, newline, form feed, carriage return, space). -/
def isGoSpace (c : Char) : Bool :=
  c = ' ' || c = '\t' || c = '\n' || c = '\x0c' || c = '\r'

/-- Whether the regular expression
`\s*#\s*include\s*[<"]Arduino\.h[>"]` matches starting at this position. -/
def matchIncludeAt (s : Chars) : Bool :=
  match s.dropWhile isGoSpace with
  | c :: r1 =>
    c = '#' &&
      (let r2 := r1.dropWhile isGoSpace
       leadsWith (str "include") r2 &&
         (let r3 := (r2.drop 7).dropWhile isGoSpace
          match r3 with
          | q :: r4 =>
            (q = '<' || q = '"') && leadsWith (str "Arduino.h") r4 &&
              (match r4.drop 9 with
               | e :: _ => e = '>' || e = '"'
               | [] => false)
          | [] => false))
  | [] => false

/-- The suffixes of `s` that start just after a newline: together with `s`
itself these are the positions where the multiline anchor `^` matches. -/
def lineAnchors : Chars → List Chars
  | [] => []
  | c :: rest => (if c = '\n' then [rest] else []) ++ lineAnchors rest

/-- The compiled pattern `includesArduinoH`:
`(?m)^\s*#\s*include\s*[<"]Arduino\.h[>"]` — true when the pattern matches
anywhere in the text. -/
def includesArduinoH (s : Chars) : Bool :=
  matchIncludeAt s || (lineAnchors s).any matchIncludeAt

/-- `getSource` from `sketchMergeSources`: an override keyed by the
sketch-relative path wins over the file's own content. -/
def getSource (overrides : Properties.Store) (f : SketchFile) : Chars :=
  (Properties.get overrides f.relPath).getD f.content

/-- `sketchMergeSources`: merge the main file and the other top-level
source files into one unit, returning the line offset and the merged
source. -/
def sketchMergeSources (sk : Sketch) (overrides : Properties.Store) : Nat × Chars :=
  sk.otherSketchFiles.foldl
    (fun acc f =>
      (acc.1,
       acc.2 ++ str "#line 1 " ++ cpp.QuoteString f.path ++ ['\n'] ++
         getSource overrides f ++ ['\n']))
    ((if includesArduinoH (getSource overrides sk.mainFile) then 0 else 1) + 1,
     (if includesArduinoH (getSource overrides sk.mainFile) then ([] : Chars)
       else str "#include <Arduino.h>\n") ++
       str "#line 1 " ++ cpp.QuoteString sk.mainFile.path ++ ['\n'] ++
       getSource overrides sk.mainFile ++ ['\n'])

/-- `writeIfDifferent`: write `source` to `destPath` only when the
destination is absent or its content differs.  The file system is embedded
as a path→content association list; the returned flag records whether a
physical write happened. -/
def writeIfDifferent (source : Chars) (destPath : Chars) (fs : Properties.Store) :
    Properties.Store × Bool :=
  match Properties.get fs destPath with
  | none => (Properties.set fs destPath source, true)
  | some existing =>
    if existing = source then (fs, false)
    else (Properties.set fs destPath source, true)

/-- The content computed for a copied additional file: the provenance
marker line followed by the source bytes. -/
def additionalContent (overrides : Properties.Store) (f : SketchFile) : Chars :=
  str "#line 1 " ++ cpp.QuoteString f.path ++ ['\n'] ++ getSource overrides f

/-- Copy a single additional file under the build path through
`writeIfDifferent`, recording the destination path when a physical write
happened. -/
def copyAdditionalFile (buildPath : Chars) (overrides : Properties.Store)
    (acc : Properties.Store × List Chars) (f : SketchFile) :
    Properties.Store × List Chars :=
  let target := buildPath ++ '/' :: f.relPath
  let r := writeIfDifferent (additionalContent overrides f) target acc.1
  (r.1, acc.2 ++ if r.2 then [target] else [])

/-- `sketchCopyAdditionalFiles`: copy every additional file. -/
def sketchCopyAdditionalFiles (sk : Sketch) (buildPath : Chars)
    (overrides : Properties.Store) (fs : Properties.Store) :
    Properties.Store × List Chars :=
  sk.additionalFiles.foldl (copyAdditionalFile buildPath overrides) (fs, [])

/-- The last path component (`paths.Path.Base`). -/
def baseName (p : Chars) : Chars :=
  (p.reverse.takeWhile (fun c => !(c = '/'))).reverse

/-- `PrepareSketchBuildPath`: write the merged unit unconditionally to
`<buildPath>/<mainBase>.cpp`, then copy the additional files through
`writeIfDifferent`.  Returns the updated file system, the list of paths
physically written during this run, and the line offset. -/
def PrepareSketchBuildPath (sk : Sketch) (overrides : Properties.Store)
    (buildPath : Chars) (fs : Properties.Store) :
    (Properties.Store × List Chars) × Nat :=
  let om := sketchMergeSources sk overrides
  let destCpp := buildPath ++ '/' :: baseName sk.mainFile.path ++ str ".cpp"
  let fs1 := Properties.set fs destCpp om.2
  let r := sketchCopyAdditionalFiles sk buildPath overrides fs1
  ((r.1, destCpp :: r.2), om.1)

/-! ## Debug configuration resolution (`commands/debug/debug_info.go`) -/
/-- A resolved platform release as consumed by `getDebugProperties`:
its property layer, its runtime-tool property layer, its programmer table
(programmer id → programmer properties), and its identifier string
(`platformRelease.String()`, `vendor:arch@version`). -/
structure PlatformRelease where
  properties : Properties.Store
  runtimeProperties : Properties.Store
  programmers : List (Chars × Properties.Store)
  idStr : Chars
deriving DecidableEq

/-- The request-scoped inputs of `getDebugProperties` after the external
package manager has resolved the FQBN: the raw request fields plus the
resolved board/platform data and the externally observed state of
the import directory. -/
structure DebugInput where
  sketchPath : Chars
  reqFqbn : Chars
  metadataFqbn : Chars
  platform : PlatformRelease
  referencedPlatform : Option PlatformRelease
  boardProperties : Properties.Store
  installedTools : List Properties.Store
  requiredTools : Option (List Properties.Store)
  programmerReq : Chars
  sketchBuildPath : Chars
  importDir : Chars
  importPathExists : Bool
  importPathIsDir : Bool
  sketchName : Chars
  portAddress : Chars
deriving DecidableEq

/-- The distinct failure outcomes of `getDebugProperties`.
`nilReferencedPlatform` embeds the Go runtime panic caused by reading the
`Programmers` field of a nil `referencedPlatformRelease` pointer. -/
inductive DebugError where
  | missingSketchPath : DebugError
  | noFqbn : DebugError
  | programmerNotFound : Chars → DebugError
  | nilReferencedPlatform : DebugError
  | importPathNotFound : DebugError
  | importPathNotDir : DebugError
  | debugNotSupported : Chars → DebugError
deriving DecidableEq

/-- Decidable equality for `Except` results, used to evaluate the pipeline
on concrete inputs. -/
instance {ε α : Type} [DecidableEq ε] [DecidableEq α] : DecidableEq (Except ε α) :=
  fun a b =>
    match a, b with
    | .ok x, .ok y =>
      if h : x = y then .isTrue (by rw [h]) else .isFalse fun hc => h (Except.ok.inj hc)
    | .error e, .error f =>
      if h : e = f then .isTrue (by rw [h]) else .isFalse fun hc => h (Except.error.inj hc)
    | .ok _, .error _ => .isFalse fun hc => by cases hc
    | .error _, .ok _ => .isFalse fun hc => by cases hc

/-- The `GetDebugConfigResponse` payload. -/
structure DebugResponse where
  executable : Chars
  server : Chars
  serverPath : Chars
  serverConfiguration : Properties.Store
  toolchain : Chars
  toolchainPath : Chars
  toolchainPrefix : Chars
  toolchainConfiguration : Properties.Store
deriving DecidableEq

/-- The property layers merged before the hotfix, in source order:
referenced-platform properties (when a referenced platform exists),
platform properties, platform runtime properties, board properties. -/
def preLayers (inp : DebugInput) : List Properties.Store :=
  (match inp.referencedPlatform with
   | some rp => [rp.properties]
   | none => []) ++
  [inp.platform.properties, inp.platform.runtimeProperties, inp.boardProperties]

/-- `toolProperties` right after the first four merges of
`getDebugProperties` (lines 75-81). -/
def baseStore (inp : DebugInput) : Properties.Store :=
  (preLayers inp).foldl Properties.merge []

/-- The hardcoded `arduino:samd` 1.8.8/1.8.9 debug property set injected
by the HOTFIX block (lines 85-96), in source order. -/
def hotfixProps : Properties.Store :=
  [ (str "debug.executable", str "{build.path}/{build.project_name}.elf"),
    (str "debug.toolchain", str "gcc"),
    (str "debug.toolchain.path", str "{runtime.tools.arm-none-eabi-gcc-7-2017q4.path}/bin/"),
    (str "debug.toolchain.prefix", str "arm-none-eabi-"),
    (str "debug.server", str "openocd"),
    (str "debug.server.openocd.path", str "{runtime.tools.openocd-0.10.0-arduino7.path}/bin/openocd"),
    (str "debug.server.openocd.scripts_dir", str "{runtime.tools.openocd-0.10.0-arduino7.path}/share/openocd/scripts/"),
    (str "debug.server.openocd.script", str "{runtime.platform.path}/variants/{build.variant}/{build.openocdscript}") ]

/-- The HOTFIX block: when the store lacks `debug.executable` and the
platform identifier is `arduino:samd@1.8.9` or `arduino:samd@1.8.8`, set
the hardcoded debug properties; otherwise leave the store unchanged. -/
def applyHotfix (pid : Chars) (st : Properties.Store) : Properties.Store :=
  if Properties.containsKey st (str "debug.executable") then st
  else if pid = str "arduino:samd@1.8.9" ∨ pid = str "arduino:samd@1.8.8" then
    Properties.merge st hotfixProps
  else st

/-- Whether the HOTFIX block injects properties for this input. -/
def HotfixFires (inp : DebugInput) : Prop :=
  Properties.containsKey (baseStore inp) (str "debug.executable") = false ∧
  (inp.platform.idStr = str "arduino:samd@1.8.9" ∨
   inp.platform.idStr = str "arduino:samd@1.8.8")

instance (inp : DebugInput) : Decidable (HotfixFires inp) := by
  unfold HotfixFires
  infer_instance

/-- `toolProperties` right after the HOTFIX block. -/
def afterHotfix (inp : DebugInput) : Properties.Store :=
  applyHotfix inp.platform.idStr (baseStore inp)

/-- The layers merged after the hotfix and before the programmer: every
installed tool release's runtime properties in iteration order, then the
tools required by the board in required-order (skipped entirely when the
required-tool lookup fails, mirroring the `err == nil` guard). -/
def toolLayers (inp : DebugInput) : List Properties.Store :=
  inp.installedTools ++ inp.requiredTools.getD []

/-- `toolProperties` right after the tool merges (lines 98-106). -/
def afterTools (inp : DebugInput) : Properties.Store :=
  (toolLayers inp).foldl Properties.merge (afterHotfix inp)

/-- The programmer selection of lines 108-116: the owning platform's table
first, then the referenced platform's table — the latter read through a
nil pointer when no referenced platform exists. -/
def programmerStep (inp : DebugInput) (st : Properties.Store) :
    Except DebugError Properties.Store :=
  if inp.programmerReq = [] then .ok st
  else
    match Properties.get inp.platform.programmers inp.programmerReq with
    | some p => .ok (Properties.merge st p)
    | none =>
      match inp.referencedPlatform with
      | none => .error .nilReferencedPlatform
      | some rp =>
        match Properties.get rp.programmers inp.programmerReq with
        | some p => .ok (Properties.merge st p)
        | none => .error (.programmerNotFound inp.programmerReq)

/-- The full layer merge of `getDebugProperties` (lines 75-116),
producing `toolProperties` before the request-scoped bindings. -/
def mergeDebugLayers (inp : DebugInput) : Except DebugError Properties.Store :=
  programmerStep inp (afterTools inp)

/-- The programmer layer list selected by `programmerStep` when it
succeeds (empty when no programmer was requested). -/
def progLayers (inp : DebugInput) : List Properties.Store :=
  if inp.programmerReq = [] then []
  else
    match Properties.get inp.platform.programmers inp.programmerReq with
    | some p => [p]
    | none =>
      match inp.referencedPlatform with
      | none => []
      | some rp =>
        match Properties.get rp.programmers inp.programmerReq with
        | some p => [p]
        | none => []

/-- The layers merged after the hotfix, in merge order. -/
def postLayers (inp : DebugInput) : List Properties.Store :=
  toolLayers inp ++ progLayers inp

/-- All layers of the debug merge, in precedence order (lowest first). -/
def allLayers (inp : DebugInput) : List Properties.Store :=
  preLayers inp ++ postLayers inp

/-- The import path: the request's import directory when set, the
sketch's default build path otherwise. -/
def importPathOf (inp : DebugInput) : Chars :=
  if inp.importDir = [] then inp.sketchBuildPath else inp.importDir

/-- The request-scoped build bindings (lines 128-129). -/
def bindBuildProps (inp : DebugInput) (st : Properties.Store) : Properties.Store :=
  Properties.set
    (Properties.set st (str "build.path") (importPathOf inp))
    (str "build.project_name") (inp.sketchName ++ str ".ino")

/-- `strings.TrimPrefix(addr, "/dev/")`. -/
def stripDev (addr : Chars) : Chars :=
  if leadsWith (str "/dev/") addr then addr.drop 5 else addr

/-- The debug port bindings (lines 131-137): when an address is supplied,
set `debug.port` and always set `debug.port.file` to the address with a
leading `/dev/` removed. -/
def bindPort (addr : Chars) (st : Properties.Store) : Properties.Store :=
  if addr = [] then st
  else
    Properties.set
      (Properties.set st (str "debug.port") addr)
      (str "debug.port.file") (stripDev addr)

/-- Extraction of the debug configuration (lines 140-143): the `debug.*`
subtree, every value expanded with the FULL merged store as context. -/
def extractDebug (st : Properties.Store) : Properties.Store :=
  Properties.merge []
    ((Properties.subTree st (str "debug")).map
      fun p => (p.1, Properties.expandPropsInString st p.2))

/-- The response assembled from the extracted debug properties
(lines 149-160), with the `server` and `toolchain` values selecting two
further nested subtrees. -/
def debugResponseOf (dbg : Properties.Store) : DebugResponse :=
  { executable := Properties.getD dbg (str "executable"),
    server := Properties.getD dbg (str "server"),
    serverPath :=
      Properties.getD dbg
        (str "server." ++ Properties.getD dbg (str "server") ++ str ".path"),
    serverConfiguration :=
      Properties.subTree dbg (str "server." ++ Properties.getD dbg (str "server")),
    toolchain := Properties.getD dbg (str "toolchain"),
    toolchainPath := Properties.getD dbg (str "toolchain.path"),
    toolchainPrefix := Properties.getD dbg (str "toolchain.prefix"),
    toolchainConfiguration :=
      Properties.subTree dbg
        (str "toolchain." ++ Properties.getD dbg (str "toolchain")) }

/-- `getDebugProperties`: the full resolution pipeline. -/
def getDebugProperties (inp : DebugInput) : Except DebugError DebugResponse :=
  if inp.sketchPath = [] then .error .missingSketchPath
  else
    if (if inp.reqFqbn = [] then inp.metadataFqbn else inp.reqFqbn) = [] then
      .error .noFqbn
    else
      match mergeDebugLayers inp with
      | .error e => .error e
      | .ok st =>
        if inp.importPathExists = false then .error .importPathNotFound
        else if inp.importPathIsDir = false then .error .importPathNotDir
        else
          if Properties.containsKey
              (extractDebug (bindPort inp.portAddress (bindBuildProps inp st)))
              (str "executable") = false then
            .error (.debugNotSupported inp.reqFqbn)
          else
            .ok (debugResponseOf
              (extractDebug (bindPort inp.portAddress (bindBuildProps inp st))))

/-- The concrete end-to-end sketch of C8: main file `Sketch.ino` without
the umbrella include, one additional file `data.txt` containing `hello`. -/
def c8Sketch : Sketch :=
  { mainFile := ⟨str "Sketch.ino", str "Sketch.ino", str "void setup(){}"⟩,
    otherSketchFiles := [],
    additionalFiles := [⟨str "data.txt", str "data.txt", str "hello"⟩] }

/-- Replace the referenced platform's programmer table (when a referenced
platform exists), leaving everything else unchanged. -/
def setRefProgrammers (inp : DebugInput) (t : List (Chars × Properties.Store)) :
    DebugInput :=
  { inp with referencedPlatform :=
      inp.referencedPlatform.map fun rp => { rp with programmers := t } }

/-- The concrete input of the C3 failing case: programmer `nonexistent`,
owning platform without that programmer, no referenced platform. -/
def c3Input : DebugInput :=
  { sketchPath := str "s", reqFqbn := str "arduino:avr:uno", metadataFqbn := [],
    platform := ⟨[], [], [], str "x"⟩,
    referencedPlatform := none,
    boardProperties := [], installedTools := [], requiredTools := none,
    programmerReq := str "nonexistent",
    sketchBuildPath := str "bp", importDir := [],
    importPathExists := true, importPathIsDir := true,
    sketchName := str "Sk", portAddress := [] }

/-- The same request with a referenced platform that also lacks the
programmer. -/
def c3InputRef : DebugInput :=
  { c3Input with referencedPlatform := some ⟨[], [], [], str "r"⟩ }

/-- The concrete input of the C2 counterexample: the FQBN is supplied by
the sketch metadata, the request's own FQBN field is empty, and the board
has no debug properties. -/
def c2CexInput : DebugInput :=
  { sketchPath := str "s", reqFqbn := [], metadataFqbn := str "arduino:avr:uno",
    platform := ⟨[], [], [], str "x"⟩,
    referencedPlatform := none,
    boardProperties := [], installedTools := [], requiredTools := none,
    programmerReq := [], sketchBuildPath := str "bp", importDir := [],
    importPathExists := true, importPathIsDir := true,
    sketchName := str "Sk", portAddress := [] }

/-- The concrete input of the C2 witness: request-supplied FQBN, no debug
properties anywhere. -/
def c2WitnessInput : DebugInput :=
  { c2CexInput with reqFqbn := str "arduino:avr:uno", metadataFqbn := [] }

/-- The concrete input of the C1 counterexample: `debug.toolchain` is set
by the referenced platform and overridden by the board, the platform is
`arduino:samd@1.8.9`, and no layer provides `debug.executable`. -/
def c1CexInput : DebugInput :=
  { sketchPath := str "s", reqFqbn := str "f", metadataFqbn := [],
    platform := ⟨[], [], [], str "arduino:samd@1.8.9"⟩,
    referencedPlatform := some ⟨[(str "debug.toolchain", str "refval")], [], [], str "r"⟩,
    boardProperties := [(str "debug.toolchain", str "boardval")],
    installedTools := [], requiredTools := none, programmerReq := [],
    sketchBuildPath := str "bp", importDir := [], importPathExists := true,
    importPathIsDir := true, sketchName := str "Sk", portAddress := [] }

/-- The concrete input of the C1 witness: the board layer overrides a
platform-layer key, no hotfix applies. -/
def c1WitnessInput : DebugInput :=
  { sketchPath := str "s", reqFqbn := str "f", metadataFqbn := [],
    platform := ⟨[(str "a", str "1")], [], [], str "x"⟩,
    referencedPlatform := none,
    boardProperties := [(str "a", str "2")],
    installedTools := [], requiredTools := none, programmerReq := [],
    sketchBuildPath := str "bp", importDir := [], importPathExists := true,
    importPathIsDir := true, sketchName := str "Sk", portAddress := [] }

/-! ## Theorems -/

theorem leadsWith_iff (p l : Chars) : leadsWith p l = true ↔ ∃ t, p ++ t = l := by
  induction p generalizing l with
  | nil => simp [leadsWith]
  | cons a as ih =>
    cases l with
    | nil => simp [leadsWith]
    | cons b bs =>
      simp only [leadsWith, Bool.and_eq_true, decide_eq_true_eq, ih, List.cons_append,
        List.cons.injEq]
      constructor
      · rintro ⟨rfl, t, rfl⟩; exact ⟨t, rfl, rfl⟩
      · rintro ⟨t, rfl, rfl⟩; exact ⟨rfl, t, rfl⟩

theorem leadsWith_append (p t : Chars) : leadsWith p (p ++ t) = true :=
  (leadsWith_iff p (p ++ t)).mpr ⟨t, rfl⟩

namespace Properties

theorem get_set_self {α : Type} (l : List (Chars × α)) (k : Chars) (v : α) :
    get (set l k v) k = some v := by
  induction l with
  | nil => simp [set, get]
  | cons p l ih =>
    by_cases h : p.1 = k
    · simpa [set, h] using ih
    · simp [set, h, get, ih]

theorem get_set_ne {α : Type} (l : List (Chars × α)) (k k' : Chars) (v : α) (h : k' ≠ k) :
    get (set l k v) k' = get l k' := by
  induction l with
  | nil =>
    simp only [set, get]
    rw [if_neg (fun hh : k = k' => h hh.symm)]
  | cons p l ih =>
    by_cases hp : p.1 = k
    · have hne : p.1 ≠ k' := by rw [hp]; exact fun hh => h hh.symm
      rw [set, if_pos hp, ih, get, if_neg hne]
    · by_cases hp' : p.1 = k'
      · simp [set, hp, get, hp', h]
      · simp [set, hp, get, hp', ih]

theorem get_eq_none_of_not_mem {α : Type} (l : List (Chars × α)) (k : Chars)
    (h : ∀ p ∈ l, p.1 ≠ k) : get l k = none := by
  induction l with
  | nil => rfl
  | cons p l ih =>
    simp only [get, if_neg (h p (List.mem_cons_self p l))]
    exact ih fun q hq => h q (List.mem_cons_of_mem p hq)

theorem lastGet_eq_none_iff {α : Type} (l : List (Chars × α)) (k : Chars) :
    lastGet l k = none ↔ get l k = none := by
  induction l with
  | nil => simp [lastGet, get]
  | cons p l ih =>
    simp only [lastGet, get]
    cases hl : lastGet l k with
    | some v =>
      have hg : get l k ≠ none := fun hc => by simp [ih.mpr hc] at hl
      by_cases h : p.1 = k <;> simp [h, hg]
    | none =>
      have hg := ih.mp hl
      by_cases h : p.1 = k <;> simp [h, hg]

theorem lastGet_eq_get_of_nodup {α : Type} (l : List (Chars × α)) (k : Chars)
    (h : NodupKeys l) : lastGet l k = get l k := by
  induction l with
  | nil => rfl
  | cons p l ih =>
    have hnd : NodupKeys l := (List.nodup_cons.mp h).2
    have hni : p.1 ∉ l.map Prod.fst := (List.nodup_cons.mp h).1
    by_cases hp : p.1 = k
    · have : get l k = none := by
        apply get_eq_none_of_not_mem
        intro q hq hqk
        exact hni (hp ▸ hqk ▸ List.mem_map_of_mem Prod.fst hq)
      have hl : lastGet l k = none := (lastGet_eq_none_iff l k).mpr this
      simp [lastGet, get, hp, hl, this]
    · simp only [lastGet, get, if_neg hp, ih hnd]
      cases hg : get l k <;> simp [hg]

theorem get_merge (st other : Store) (k : Chars) :
    get (merge st other) k =
      match lastGet other k with
      | some v => some v
      | none => get st k := by
  induction other generalizing st with
  | nil => simp [merge, lastGet]
  | cons p o ih =>
    have hm : merge st (p :: o) = merge (set st p.1 p.2) o := rfl
    rw [hm, ih]
    by_cases hp : p.1 = k
    · cases hl : lastGet o k with
      | some v => simp [lastGet, hl]
      | none => simp [lastGet, hl, hp, hp ▸ get_set_self st p.1 p.2]
    · cases hl : lastGet o k with
      | some v => simp [lastGet, hl]
      | none => simp [lastGet, hl, hp, get_set_ne st p.1 k p.2 (fun hh => hp hh.symm)]

theorem get_foldl_merge (ls : List Store) (st : Store) (k : Chars) :
    get (ls.foldl merge st) k =
      match listLastGet ls k with
      | some v => some v
      | none => get st k := by
  induction ls generalizing st with
  | nil => simp [listLastGet]
  | cons l ls ih =>
    rw [List.foldl_cons, ih]
    cases hll : listLastGet ls k with
    | some v => simp [listLastGet, hll]
    | none =>
      simp only [listLastGet, hll]
      rw [get_merge]

theorem containsKey_eq_false_iff (st : Store) (k : Chars) :
    containsKey st k = false ↔ get st k = none := by
  unfold containsKey
  cases h : get st k <;> simp [h]

theorem listLastGet_eq_none (ls : List Store) (k : Chars)
    (h : ∀ l ∈ ls, containsKey l k = false) : listLastGet ls k = none := by
  induction ls with
  | nil => rfl
  | cons l ls ih =>
    have hg : get l k = none :=
      (containsKey_eq_false_iff l k).mp (h l (List.mem_cons_self l ls))
    have hl : lastGet l k = none := (lastGet_eq_none_iff l k).mpr hg
    simp [listLastGet, ih fun l' hl' => h l' (List.mem_cons_of_mem _ hl'), hl]

theorem listLastGet_last (ls : List Store) (k v : Chars) :
    ∀ (i : Nat) (hi : i < ls.length),
      (∀ l ∈ ls, NodupKeys l) →
      get (ls.get ⟨i, hi⟩) k = some v →
      (∀ (j : Nat) (hj : j < ls.length), i < j → containsKey (ls.get ⟨j, hj⟩) k = false) →
      listLastGet ls k = some v := by
  induction ls with
  | nil => intro i hi; simp at hi
  | cons l ls ih =>
    intro i hi hnd hv hlater
    cases i with
    | zero =>
      have hv' : get l k = some v := hv
      have hnone : listLastGet ls k = none := by
        apply listLastGet_eq_none
        intro l' hl'
        obtain ⟨j, hj⟩ := List.mem_iff_get.mp hl'
        have := hlater (j.val + 1) (by simpa using j.isLt) (Nat.succ_pos _)
        have h2 : containsKey (ls.get j) k = false := by simpa using this
        rwa [hj] at h2
      have hl : lastGet l k = some v := by
        rw [lastGet_eq_get_of_nodup l k (hnd l (List.mem_cons_self l ls))]
        exact hv'
      simp [listLastGet, hnone, hl]
    | succ j =>
      have hj : j < ls.length := by simpa using hi
      have hv' : get (ls.get ⟨j, hj⟩) k = some v := hv
      have hrec : listLastGet ls k = some v := by
        apply ih j hj (fun l' h' => hnd l' (List.mem_cons_of_mem _ h')) hv'
        intro j2 hj2 hlt2
        have := hlater (j2 + 1) (by simpa using hj2) (Nat.succ_lt_succ hlt2)
        simpa using this
      simp [listLastGet, hrec]

theorem lastGet_eq_none_of_not_mem {α : Type} (l : List (Chars × α)) (k : Chars)
    (h : k ∉ l.map Prod.fst) : lastGet l k = none := by
  rw [lastGet_eq_none_iff]
  apply get_eq_none_of_not_mem
  intro p hp hpk
  exact h (hpk ▸ List.mem_map_of_mem Prod.fst hp)

theorem get_subTree (st : Store) (root k : Chars) :
    get (subTree st root) k = get st (root ++ '.' :: k) := by
  have hk : root ++ '.' :: k = (root ++ ['.']) ++ k := by simp
  induction st with
  | nil => rfl
  | cons p rest ih =>
    by_cases hp : leadsWith (root ++ ['.']) p.1 = true
    · have hsub : subTree (p :: rest) root =
          (p.1.drop (root.length + 1), p.2) :: subTree rest root := by
        simp [subTree, hp]
      obtain ⟨t, ht⟩ := (leadsWith_iff _ _).mp hp
      have hdrop : p.1.drop (root.length + 1) = t := by
        rw [← ht]
        have hlen : (root ++ ['.']).length = root.length + 1 := by simp
        rw [← hlen, List.drop_left]
      rw [hsub, hdrop]
      by_cases htk : t = k
      · have hkey : p.1 = root ++ '.' :: k := by rw [hk, ← ht, htk]
        simp [get, htk, hkey]
      · have hkey : p.1 ≠ root ++ '.' :: k := by
          rw [hk, ← ht]
          intro hc
          exact htk (List.append_cancel_left hc)
        simp [get, htk, hkey, ih]
    · have hsub : subTree (p :: rest) root = subTree rest root := by
        simp [subTree, hp]
      have hkey : p.1 ≠ root ++ '.' :: k := by
        intro hc
        apply hp
        rw [hc, hk]
        exact leadsWith_append _ _
      rw [hsub]
      simp [get, hkey, ih]

theorem mem_keys_subTree (st : Store) (root k' : Chars)
    (h : k' ∈ (subTree st root).map Prod.fst) :
    (root ++ '.' :: k') ∈ st.map Prod.fst := by
  induction st with
  | nil => simp [subTree] at h
  | cons p rest ih =>
    by_cases hp : leadsWith (root ++ ['.']) p.1 = true
    · rw [subTree, if_pos hp] at h
      simp only [List.map_cons, List.mem_cons] at h ⊢
      cases h with
      | inl h =>
        obtain ⟨t, ht⟩ := (leadsWith_iff _ _).mp hp
        have hdrop : p.1.drop (root.length + 1) = t := by
          rw [← ht]
          have hlen : (root ++ ['.']).length = root.length + 1 := by simp
          rw [← hlen, List.drop_left]
        left
        rw [h, hdrop, ← ht]
        simp
      | inr h => right; exact ih h
    · rw [subTree, if_neg hp] at h
      exact List.mem_cons_of_mem _ (ih h)

theorem nodupKeys_subTree (st : Store) (root : Chars) (h : NodupKeys st) :
    NodupKeys (subTree st root) := by
  induction st with
  | nil => simp [subTree, NodupKeys]
  | cons p rest ih =>
    have hni : p.1 ∉ rest.map Prod.fst := (List.nodup_cons.mp h).1
    have hnd : NodupKeys rest := (List.nodup_cons.mp h).2
    by_cases hp : leadsWith (root ++ ['.']) p.1 = true
    · rw [subTree, if_pos hp]
      refine List.nodup_cons.mpr ⟨?_, ih hnd⟩
      intro hmem
      have hmem' := mem_keys_subTree rest root _ hmem
      obtain ⟨t, ht⟩ := (leadsWith_iff _ _).mp hp
      have hdrop : p.1.drop (root.length + 1) = t := by
        rw [← ht]
        have hlen : (root ++ ['.']).length = root.length + 1 := by simp
        rw [← hlen, List.drop_left]
      rw [hdrop] at hmem'
      apply hni
      have : root ++ '.' :: t = p.1 := by rw [← ht]; simp
      rwa [this] at hmem'
    · rw [subTree, if_neg hp]
      exact ih hnd

theorem get_map_value (l : Store) (g : Chars → Chars) (k : Chars) :
    get (l.map fun p => (p.1, g p.2)) k = (get l k).map g := by
  induction l with
  | nil => rfl
  | cons p rest ih =>
    by_cases hp : p.1 = k <;> simp [get, hp, ih]

theorem expandOnce_no_open (st : Store) (s : Chars) (h : ∀ c ∈ s, c ≠ '{') :
    expandOnce st s = s := by
  unfold expandOnce
  induction s with
  | nil => rfl
  | cons c rest ih =>
    rw [expandAux, if_neg (by simpa using h c (List.mem_cons_self _ _))]
    rw [ih fun d hd => h d (List.mem_cons_of_mem _ hd)]

theorem expandOnce_append (st : Store) (pre rest : Chars) (h : ∀ c ∈ pre, c ≠ '{') :
    expandOnce st (pre ++ rest) = pre ++ expandOnce st rest := by
  unfold expandOnce
  induction pre with
  | nil => rfl
  | cons c p ih =>
    rw [List.cons_append, expandAux,
      if_neg (by simpa using h c (List.mem_cons_self _ _))]
    rw [ih fun d hd => h d (List.mem_cons_of_mem _ hd), List.cons_append]

theorem expandAux_key (st : Store) (key post acc : Chars) (h : ∀ c ∈ key, c ≠ '}') :
    expandAux st (some acc) (key ++ '}' :: post) =
      getD st (acc.reverse ++ key) ++ expandAux st none post := by
  induction key generalizing acc with
  | nil => simp [expandAux]
  | cons c rest ih =>
    rw [List.cons_append, expandAux,
      if_neg (by simpa using h c (List.mem_cons_self _ _))]
    rw [ih (c :: acc) fun d hd => h d (List.mem_cons_of_mem _ hd)]
    simp

theorem expandOnce_placeholder (st : Store) (key post : Chars) (h : ∀ c ∈ key, c ≠ '}') :
    expandOnce st ('{' :: (key ++ '}' :: post)) = getD st key ++ expandOnce st post := by
  unfold expandOnce
  rw [expandAux, if_pos rfl, expandAux_key st key post [] h]
  rfl

theorem expandIter_fix (st : Store) (n : Nat) (s : Chars) (h : expandOnce st s = s) :
    expandIter st n s = s := by
  cases n with
  | zero => rfl
  | succ n => simp [expandIter, h]

theorem expandIter_succ_of (st : Store) (n : Nat) (s t : Chars)
    (h1 : expandOnce st s = t) (h2 : expandOnce st t = t) :
    expandIter st (n + 1) s = t := by
  simp only [expandIter, h1]
  by_cases he : t = s
  · rw [if_pos he]; exact he.symm
  · rw [if_neg he]; exact expandIter_fix st n t h2

theorem expandProps_of_once (st : Store) (s t : Chars)
    (h1 : expandOnce st s = t) (h2 : expandOnce st t = t) :
    expandPropsInString st s = t :=
  expandIter_succ_of st 9 s t h1 h2

end Properties

/-! ## Supporting lemmas for the merger and copy primitives -/
theorem foldl_snd_prefix {β : Type} (l : List β) (step : Nat × Chars → β → Nat × Chars)
    (hstep : ∀ a f, ∃ t, (step a f).2 = a.2 ++ t) (a : Nat × Chars) :
    ∃ t, (l.foldl step a).2 = a.2 ++ t := by
  induction l generalizing a with
  | nil => exact ⟨[], by simp⟩
  | cons x xs ih =>
    obtain ⟨t1, h1⟩ := hstep a x
    obtain ⟨t2, h2⟩ := ih (step a x)
    exact ⟨t1 ++ t2, by rw [List.foldl_cons, h2, h1, List.append_assoc]⟩

theorem foldl_keep_fst {β : Type} (l : List β) (step : Nat × Chars → β → Nat × Chars)
    (hstep : ∀ a f, (step a f).1 = a.1) (a : Nat × Chars) :
    (l.foldl step a).1 = a.1 := by
  induction l generalizing a with
  | nil => rfl
  | cons x xs ih => rw [List.foldl_cons, ih, hstep]

theorem sketchMergeSources_fst (sk : Sketch) (ov : Properties.Store) :
    (sketchMergeSources sk ov).1 =
      (if includesArduinoH (getSource ov sk.mainFile) then 0 else 1) + 1 := by
  unfold sketchMergeSources
  by_cases h : includesArduinoH (getSource ov sk.mainFile)
  · rw [if_pos h]
    apply foldl_keep_fst
    intro a f
    rfl
  · rw [if_neg h]
    apply foldl_keep_fst
    intro a f
    rfl

theorem sketchMergeSources_snd (sk : Sketch) (ov : Properties.Store) :
    ∃ t, (sketchMergeSources sk ov).2 =
      (if includesArduinoH (getSource ov sk.mainFile) then ([] : Chars)
        else str "#include <Arduino.h>\n") ++
      str "#line 1 " ++ cpp.QuoteString sk.mainFile.path ++ ['\n'] ++
      getSource ov sk.mainFile ++ ['\n'] ++ t := by
  unfold sketchMergeSources
  have hstep : ∀ (a : Nat × Chars) (f : SketchFile),
      ∃ t, ((a.1, a.2 ++ str "#line 1 " ++ cpp.QuoteString f.path ++ ['\n'] ++
        getSource ov f ++ ['\n']) : Nat × Chars).2 = a.2 ++ t := by
    intro a f
    exact ⟨str "#line 1 " ++ cpp.QuoteString f.path ++ ['\n'] ++ getSource ov f ++ ['\n'],
      by simp [List.append_assoc]⟩
  by_cases h : includesArduinoH (getSource ov sk.mainFile)
  · rw [if_pos h]
    obtain ⟨t, ht⟩ := foldl_snd_prefix sk.otherSketchFiles _ hstep _
    refine ⟨t, ?_⟩
    rw [ht]
  · rw [if_neg h]
    obtain ⟨t, ht⟩ := foldl_snd_prefix sk.otherSketchFiles _ hstep _
    refine ⟨t, ?_⟩
    rw [ht]

theorem get_writeIfDifferent_self (c d : Chars) (fs : Properties.Store) :
    Properties.get (writeIfDifferent c d fs).1 d = some c := by
  unfold writeIfDifferent
  cases h : Properties.get fs d with
  | none => simp [Properties.get_set_self]
  | some e =>
    by_cases he : e = c
    · simp [he, h]
    · simp [he, Properties.get_set_self]

theorem writeIfDifferent_noop (c d : Chars) (fs : Properties.Store)
    (h : Properties.get fs d = some c) : (writeIfDifferent c d fs).2 = false := by
  unfold writeIfDifferent
  rw [h]
  simp

theorem writeIfDifferent_flag (c d : Chars) (fs : Properties.Store) :
    (writeIfDifferent c d fs).2 = true ↔
      (Properties.get fs d = none ∨ Properties.get fs d ≠ some c) := by
  unfold writeIfDifferent
  cases h : Properties.get fs d with
  | none => simp
  | some e =>
    by_cases he : e = c
    · simp [he, h]
    · simp [he, h]

/-- C4: merging a main file whose content does not match the
umbrella-include pattern yields line offset exactly 2 with the merged text
starting with the injected include line followed by the `#line 1` marker
for the main file; a main file that matches the pattern yields offset
exactly 1; the other top-level source files never change the offset. -/
theorem c4_sketch_merge_offset (sk : Sketch) (ov : Properties.Store) :
    (includesArduinoH (getSource ov sk.mainFile) = false →
      (sketchMergeSources sk ov).1 = 2 ∧
      leadsWith
        (str "#include <Arduino.h>\n" ++ str "#line 1 " ++
          cpp.QuoteString sk.mainFile.path ++ ['\n'])
        (sketchMergeSources sk ov).2 = true) ∧
    (includesArduinoH (getSource ov sk.mainFile) = true →
      (sketchMergeSources sk ov).1 = 1) ∧
    (∀ others : List SketchFile,
      (sketchMergeSources { sk with otherSketchFiles := others } ov).1 =
        (sketchMergeSources sk ov).1) := by
  refine ⟨?_, ?_, ?_⟩
  · intro h
    constructor
    · rw [sketchMergeSources_fst]
      simp [h]
    · obtain ⟨t, ht⟩ := sketchMergeSources_snd sk ov
      rw [ht]
      simpa [h, List.append_assoc] using
        leadsWith_append
          (str "#include <Arduino.h>\n" ++ str "#line 1 " ++
            cpp.QuoteString sk.mainFile.path ++ ['\n'])
          (getSource ov sk.mainFile ++ '\n' :: t)
  · intro h
    rw [sketchMergeSources_fst]
    simp [h]
  · intro others
    rw [sketchMergeSources_fst, sketchMergeSources_fst]

/-- Witness for C4 at a concrete sketch without the umbrella include. -/
theorem c4_sketch_merge_offset_witness :
    (sketchMergeSources
      ⟨⟨str "Sketch.ino", str "Sketch.ino", str "void setup(){}"⟩, [], []⟩ []).1 = 2 :=
  ((c4_sketch_merge_offset
      ⟨⟨str "Sketch.ino", str "Sketch.ino", str "void setup(){}"⟩, [], []⟩ []).1
    (by decide)).1

/-- C5: an additional-file copy physically writes the destination iff the
destination is absent or its content differs byte-for-byte from the newly
computed content (marker line plus source bytes); copying the same
unchanged file twice performs exactly one write, and copying again after a
content change performs a second write with the updated content. -/
theorem c5_copy_write_if_different (bp : Chars) (ov : Properties.Store) (f : SketchFile)
    (fs : Properties.Store) :
    ((writeIfDifferent (additionalContent ov f) (bp ++ '/' :: f.relPath) fs).2 = true ↔
      (Properties.get fs (bp ++ '/' :: f.relPath) = none ∨
       Properties.get fs (bp ++ '/' :: f.relPath) ≠ some (additionalContent ov f))) ∧
    (Properties.get fs (bp ++ '/' :: f.relPath) = none →
      (writeIfDifferent (additionalContent ov f) (bp ++ '/' :: f.relPath) fs).2 = true) ∧
    (writeIfDifferent (additionalContent ov f) (bp ++ '/' :: f.relPath)
        (writeIfDifferent (additionalContent ov f) (bp ++ '/' :: f.relPath) fs).1).2 = false ∧
    (∀ ov2 : Properties.Store,
      additionalContent ov2 f ≠ additionalContent ov f →
      (writeIfDifferent (additionalContent ov2 f) (bp ++ '/' :: f.relPath)
          (writeIfDifferent (additionalContent ov f) (bp ++ '/' :: f.relPath) fs).1).2 = true ∧
      Properties.get
        (writeIfDifferent (additionalContent ov2 f) (bp ++ '/' :: f.relPath)
          (writeIfDifferent (additionalContent ov f) (bp ++ '/' :: f.relPath) fs).1).1
        (bp ++ '/' :: f.relPath) = some (additionalContent ov2 f)) := by
  refine ⟨writeIfDifferent_flag _ _ _, ?_, ?_, ?_⟩
  · intro h
    rw [writeIfDifferent_flag]
    exact Or.inl h
  · exact writeIfDifferent_noop _ _ _
      (get_writeIfDifferent_self (additionalContent ov f) (bp ++ '/' :: f.relPath) fs)
  · intro ov2 hne
    have hself := get_writeIfDifferent_self (additionalContent ov f)
      (bp ++ '/' :: f.relPath) fs
    constructor
    · rw [writeIfDifferent_flag, hself]
      right
      intro hc
      exact hne (Option.some.inj hc).symm
    · exact get_writeIfDifferent_self _ _ _

/-- Witness for C5 at a concrete file, empty file system and a changed
override. -/
theorem c5_copy_write_if_different_witness :
    (writeIfDifferent
      (additionalContent [(str "data.txt", str "bye")]
        ⟨str "data.txt", str "data.txt", str "hello"⟩)
      (str "build" ++ '/' :: str "data.txt")
      (writeIfDifferent
        (additionalContent [] ⟨str "data.txt", str "data.txt", str "hello"⟩)
        (str "build" ++ '/' :: str "data.txt") []).1).2 = true :=
  ((c5_copy_write_if_different (str "build") []
      ⟨str "data.txt", str "data.txt", str "hello"⟩ []).2.2.2
    [(str "data.txt", str "bye")] (by decide)).1

/-- C8: after materialization, `build/Sketch.ino.cpp` begins with the
injected include line followed by the marker `#line 1 "Sketch.ino"`, and
`build/data.txt` is the marker `#line 1 "data.txt"` followed by `hello`;
the merged `.cpp` file is written on every run while the additional file
goes through write-if-different (a second run writes only the `.cpp`). -/
theorem c8_end_to_end :
    leadsWith (str "#include <Arduino.h>\n#line 1 \"Sketch.ino\"\n")
      (Properties.getD (PrepareSketchBuildPath c8Sketch [] (str "build") []).1.1
        (str "build/Sketch.ino.cpp")) = true ∧
    Properties.get (PrepareSketchBuildPath c8Sketch [] (str "build") []).1.1
      (str "build/data.txt") = some (str "#line 1 \"data.txt\"\nhello") ∧
    (PrepareSketchBuildPath c8Sketch [] (str "build") []).1.2 =
      [str "build/Sketch.ino.cpp", str "build/data.txt"] ∧
    (PrepareSketchBuildPath c8Sketch [] (str "build")
        (PrepareSketchBuildPath c8Sketch [] (str "build") []).1.1).1.2 =
      [str "build/Sketch.ino.cpp"] := by
  decide

/-- C7: the legacy injection fires exactly when the platform identifier is
`arduino:samd@1.8.9` or `arduino:samd@1.8.8` and the merged store so far
lacks `debug.executable`; it then adds exactly the fixed hardcoded debug
properties (leaving every other key untouched); for any other platform
identifier, or when `debug.executable` is present, the store is unchanged. -/
theorem c7_hotfix (inp : DebugInput) :
    (HotfixFires inp →
      ∀ k, Properties.get (afterHotfix inp) k =
        match Properties.get hotfixProps k with
        | some v => some v
        | none => Properties.get (baseStore inp) k) ∧
    (inp.platform.idStr ≠ str "arduino:samd@1.8.9" ∧
        inp.platform.idStr ≠ str "arduino:samd@1.8.8" →
      afterHotfix inp = baseStore inp) ∧
    (Properties.containsKey (baseStore inp) (str "debug.executable") = true →
      afterHotfix inp = baseStore inp) := by
  refine ⟨?_, ?_, ?_⟩
  · rintro ⟨h1, h2⟩ k
    unfold afterHotfix applyHotfix
    rw [if_neg (by simp [h1]), if_pos h2, Properties.get_merge,
      Properties.lastGet_eq_get_of_nodup hotfixProps k (by decide)]
  · rintro ⟨h1, h2⟩
    unfold afterHotfix applyHotfix
    by_cases hc : Properties.containsKey (baseStore inp) (str "debug.executable") = true
    · rw [if_pos hc]
    · rw [if_neg hc, if_neg (by rintro (h | h) <;> [exact h1 h; exact h2 h])]
  · intro hc
    unfold afterHotfix applyHotfix
    rw [if_pos hc]

/-- Witness for C7: a samd\@1.8.9 platform without `debug.executable`
receives the hardcoded toolchain value; an unrelated platform identifier
leaves the store unchanged. -/
theorem c7_hotfix_witness :
    Properties.get
      (afterHotfix
        { sketchPath := str "s", reqFqbn := str "f", metadataFqbn := [],
          platform := ⟨[], [], [], str "arduino:samd@1.8.9"⟩,
          referencedPlatform := none, boardProperties := [],
          installedTools := [], requiredTools := none, programmerReq := [],
          sketchBuildPath := str "bp", importDir := [],
          importPathExists := true, importPathIsDir := true,
          sketchName := str "Sk", portAddress := [] })
      (str "debug.toolchain") = some (str "gcc") := by
  rw [(c7_hotfix _).1 (by decide) (str "debug.toolchain")]
  decide

/-- C9 counterexample to the claim as stated: for the address `COM3`,
which does not begin with the device directory `/dev/`, the resolver still
sets `debug.port.file` (to the unchanged address). -/
theorem c9_counterexample :
    Properties.containsKey (bindPort (str "COM3") []) (str "debug.port.file") = true ∧
    leadsWith (str "/dev/") (str "COM3") = false ∧
    Properties.get (bindPort (str "COM3") []) (str "debug.port.file") =
      some (str "COM3") := by
  decide

/-- C9 (amended): when a port address is supplied the resolver sets
`debug.port` to the address and always sets `debug.port.file` to the
address with a leading `/dev/` stripped when present (the unchanged
address otherwise); when no address is supplied neither key is set. -/
theorem c9_port_binding (addr : Chars) (st : Properties.Store) :
    (addr ≠ [] →
      Properties.get (bindPort addr st) (str "debug.port") = some addr ∧
      Properties.get (bindPort addr st) (str "debug.port.file") =
        some (stripDev addr)) ∧
    (addr = [] → bindPort addr st = st) := by
  constructor
  · intro h
    unfold bindPort
    rw [if_neg h]
    constructor
    · rw [Properties.get_set_ne _ _ _ _ (by decide)]
      exact Properties.get_set_self _ _ _
    · exact Properties.get_set_self _ _ _
  · intro h
    unfold bindPort
    rw [if_pos h]

/-- Witness for C9 at a device-file address. -/
theorem c9_port_binding_witness :
    Properties.get (bindPort (str "/dev/ttyACM0") []) (str "debug.port.file") =
      some (str "ttyACM0") := by
  rw [((c9_port_binding (str "/dev/ttyACM0") []).1 (by decide)).2]
  decide

/-- C10: when the requested programmer is present in the owning platform's
table, the merged configuration uses the owning platform's programmer
properties and the referenced platform's programmer table is never
consulted (replacing it by any other table leaves the result unchanged). -/
theorem c10_owning_programmer_first (inp : DebugInput) (p : Properties.Store)
    (hreq : inp.programmerReq ≠ [])
    (hfound : Properties.get inp.platform.programmers inp.programmerReq = some p) :
    mergeDebugLayers inp = .ok (Properties.merge (afterTools inp) p) ∧
    (∀ t, mergeDebugLayers (setRefProgrammers inp t) = mergeDebugLayers inp) := by
  have hsame : ∀ t, afterTools (setRefProgrammers inp t) = afterTools inp := by
    intro t
    unfold afterTools toolLayers afterHotfix baseStore preLayers setRefProgrammers
    cases hr : inp.referencedPlatform <;> simp [hr]
  constructor
  · unfold mergeDebugLayers programmerStep
    rw [if_neg hreq, hfound]
  · intro t
    unfold mergeDebugLayers
    rw [hsame t]
    have hred : programmerStep (setRefProgrammers inp t) (afterTools inp) =
        Except.ok (Properties.merge (afterTools inp) p) := by
      simp [programmerStep, setRefProgrammers, hreq, hfound]
    have hred2 : programmerStep inp (afterTools inp) =
        Except.ok (Properties.merge (afterTools inp) p) := by
      simp [programmerStep, hreq, hfound]
    rw [hred, hred2]

/-- Witness for C10: the owning platform's programmer layer wins even when
the referenced platform's table carries the same identifier. -/
theorem c10_owning_programmer_first_witness :
    mergeDebugLayers
      { sketchPath := str "s", reqFqbn := str "f", metadataFqbn := [],
        platform := ⟨[], [], [(str "p1", [(str "k", str "own")])], str "x"⟩,
        referencedPlatform := some ⟨[], [], [(str "p1", [(str "k", str "ref")])], str "r"⟩,
        boardProperties := [], installedTools := [], requiredTools := none,
        programmerReq := str "p1", sketchBuildPath := str "bp", importDir := [],
        importPathExists := true, importPathIsDir := true,
        sketchName := str "Sk", portAddress := [] } =
      .ok [(str "k", str "own")] := by
  rw [(c10_owning_programmer_first _ [(str "k", str "own")] (by decide) (by decide)).1]
  decide

theorem map_value_keys (l : Properties.Store) (g : Chars → Chars) :
    (l.map fun p => (p.1, g p.2)).map Prod.fst = l.map Prod.fst := by
  induction l with
  | nil => rfl
  | cons a l ih => simp only [List.map_cons, ih]

/-- C6: the debug configuration is the `debug.*` subtree (prefix stripped)
with every value expanded using the FULL merged store as context; in
particular a debug value referencing a build-wide key such as
`\x7bbuild.path\x7d` expands to that key's value from the merged store. -/
theorem c6_extract_expand (st : Properties.Store) (hnd : Properties.NodupKeys st) :
    (∀ k, Properties.get (extractDebug st) k =
      (Properties.get st (str "debug." ++ k)).map (Properties.expandPropsInString st)) ∧
    (∀ k pre post p : Chars,
      Properties.get st (str "build.path") = some p →
      (∀ c ∈ pre, c ≠ '{') → (∀ c ∈ post, c ≠ '{') → (∀ c ∈ p, c ≠ '{') →
      Properties.get st (str "debug." ++ k) = some (pre ++ str "{build.path}" ++ post) →
      Properties.get (extractDebug st) k = some (pre ++ p ++ post)) := by
  have h1 : ∀ k, Properties.get (extractDebug st) k =
      (Properties.get st (str "debug." ++ k)).map (Properties.expandPropsInString st) := by
    intro k
    unfold extractDebug
    rw [Properties.get_merge]
    have hnd2 : Properties.NodupKeys
        ((Properties.subTree st (str "debug")).map
          fun p => (p.1, Properties.expandPropsInString st p.2)) := by
      unfold Properties.NodupKeys
      rw [map_value_keys]
      exact Properties.nodupKeys_subTree st (str "debug") hnd
    rw [Properties.lastGet_eq_get_of_nodup _ _ hnd2, Properties.get_map_value,
      Properties.get_subTree]
    have hstr : str "debug." ++ k = str "debug" ++ '.' :: k := rfl
    rw [hstr]
    cases hx : Properties.get st (str "debug" ++ '.' :: k) <;> simp [hx, Properties.get]
  refine ⟨h1, ?_⟩
  intro k pre post p hbp hpre hpost hp hval
  rw [h1 k, hval]
  have hkey : ∀ c ∈ str "build.path", c ≠ '}' := by decide
  have hs : pre ++ str "{build.path}" ++ post =
      pre ++ ('{' :: (str "build.path" ++ '}' :: post)) := by
    rw [List.append_assoc]
    rfl
  have hgetD : Properties.getD st (str "build.path") = p := by
    unfold Properties.getD
    rw [hbp]
    rfl
  have e1 : Properties.expandOnce st (pre ++ ('{' :: (str "build.path" ++ '}' :: post))) =
      pre ++ (p ++ post) := by
    rw [Properties.expandOnce_append st pre _ hpre,
      Properties.expandOnce_placeholder st _ _ hkey,
      Properties.expandOnce_no_open st post hpost, hgetD]
  have e2 : Properties.expandOnce st (pre ++ (p ++ post)) = pre ++ (p ++ post) := by
    apply Properties.expandOnce_no_open
    intro c hc
    rcases List.mem_append.mp hc with h | h
    · exact hpre c h
    · rcases List.mem_append.mp h with h2 | h2
      · exact hp c h2
      · exact hpost c h2
  have hfull := Properties.expandProps_of_once st _ _ e1 e2
  rw [hs]
  simp only [Option.map_some']
  rw [hfull]
  simp [List.append_assoc]

/-- Witness for C6 at a concrete store whose debug key references
`build.path`. -/
theorem c6_extract_expand_witness :
    Properties.get
      (extractDebug [(str "build.path", str "/bp"), (str "debug.x", str "a{build.path}b")])
      (str "x") = some (str "a/bpb") := by
  rw [(c6_extract_expand
      [(str "build.path", str "/bp"), (str "debug.x", str "a{build.path}b")]
      (by decide)).2
    (str "x") (str "a") (str "b") (str "/bp")
    (by decide) (by decide) (by decide) (by decide) (by decide)]
  decide

/-- C3 (code bug): with programmer `nonexistent` absent from the owning
platform's table and NO referenced platform, `getDebugProperties` reads
the `Programmers` field of the nil referenced-platform pointer — a Go
runtime panic, embedded as `nilReferencedPlatform` — instead of returning
`ProgrammerNotFound`; when a referenced platform exists but also lacks the
programmer, it does return `ProgrammerNotFound("nonexistent")`. -/
theorem c3_programmer_nil_panic :
    getDebugProperties c3Input = .error .nilReferencedPlatform ∧
    getDebugProperties c3InputRef =
      .error (.programmerNotFound (str "nonexistent")) := by
  decide

/-- C2 counterexample to the claim as stated: the target board identifier
is `arduino:avr:uno` (resolved from sketch metadata), but the
`UnsupportedOperation` error carries the request's empty FQBN field, so
its message does not name the target board. -/
theorem c2_counterexample :
    getDebugProperties c2CexInput = .error (.debugNotSupported []) ∧
    c2CexInput.reqFqbn = [] ∧
    c2CexInput.metadataFqbn = str "arduino:avr:uno" ∧
    ([] : Chars) ≠ str "arduino:avr:uno" := by
  decide

/-- C2 (amended): whenever resolution reaches extraction (the request
guards pass and the layer merge succeeds), a missing `executable` key in
the extracted, expanded debug subtree makes resolution fail with the
distinct `UnsupportedOperation`-kind error `debugNotSupported` carrying
the request's FQBN field (which names the target board whenever the
request itself supplies the FQBN); when the subtree contains `executable`,
resolution succeeds and this error is not produced. -/
theorem c2_missing_executable (inp : DebugInput) (st : Properties.Store)
    (hsk : inp.sketchPath ≠ [])
    (hfq : (if inp.reqFqbn = [] then inp.metadataFqbn else inp.reqFqbn) ≠ [])
    (hok : mergeDebugLayers inp = .ok st)
    (hex : inp.importPathExists = true)
    (hdir : inp.importPathIsDir = true) :
    (Properties.containsKey
        (extractDebug (bindPort inp.portAddress (bindBuildProps inp st)))
        (str "executable") = false →
      getDebugProperties inp = .error (.debugNotSupported inp.reqFqbn)) ∧
    (Properties.containsKey
        (extractDebug (bindPort inp.portAddress (bindBuildProps inp st)))
        (str "executable") = true →
      getDebugProperties inp =
        .ok (debugResponseOf
          (extractDebug (bindPort inp.portAddress (bindBuildProps inp st))))) := by
  constructor
  · intro h
    simp [getDebugProperties, hsk, hfq, hok, hex, hdir, h]
  · intro h
    simp [getDebugProperties, hsk, hfq, hok, hex, hdir, h]

/-- Witness for C2: the missing-executable branch at a concrete input. -/
theorem c2_missing_executable_witness :
    getDebugProperties c2WitnessInput =
      .error (.debugNotSupported (str "arduino:avr:uno")) :=
  (c2_missing_executable c2WitnessInput []
      (by decide) (by decide) (by decide) (by decide) (by decide)).1 (by decide)

theorem applyHotfix_get_skip (pid : Chars) (st : Properties.Store) (k : Chars)
    (hk : k ∉ hotfixProps.map Prod.fst) :
    Properties.get (applyHotfix pid st) k = Properties.get st k := by
  unfold applyHotfix
  by_cases hc : Properties.containsKey st (str "debug.executable") = true
  · rw [if_pos hc]
  · rw [if_neg hc]
    by_cases hid : pid = str "arduino:samd@1.8.9" ∨ pid = str "arduino:samd@1.8.8"
    · rw [if_pos hid, Properties.get_merge,
        Properties.lastGet_eq_none_of_not_mem hotfixProps k hk]
    · rw [if_neg hid]

theorem applyHotfix_not_fires (inp : DebugInput) (h : ¬ HotfixFires inp) :
    afterHotfix inp = baseStore inp := by
  unfold afterHotfix applyHotfix
  by_cases hc : Properties.containsKey (baseStore inp) (str "debug.executable") = true
  · rw [if_pos hc]
  · rw [if_neg hc, if_neg]
    intro hid
    have hcf : Properties.containsKey (baseStore inp) (str "debug.executable") = false := by
      simpa using hc
    exact h ⟨hcf, hid⟩

theorem mergeDebugLayers_ok (inp : DebugInput) (st : Properties.Store)
    (h : mergeDebugLayers inp = .ok st) :
    st = (postLayers inp).foldl Properties.merge (afterHotfix inp) := by
  unfold mergeDebugLayers programmerStep at h
  unfold postLayers progLayers
  rw [List.foldl_append]
  by_cases hreq : inp.programmerReq = []
  · rw [if_pos hreq] at h
    simp only [if_pos hreq, List.foldl_nil]
    exact (Except.ok.inj h).symm
  · rw [if_neg hreq] at h
    simp only [if_neg hreq]
    cases hply : Properties.get inp.platform.programmers inp.programmerReq with
    | some p =>
      simp only [hply] at h ⊢
      simp only [List.foldl_cons, List.foldl_nil]
      exact (Except.ok.inj h).symm
    | none =>
      simp only [hply] at h ⊢
      cases hrp : inp.referencedPlatform with
      | none =>
        simp only [hrp] at h
        exact Except.noConfusion h
      | some rp =>
        simp only [hrp] at h ⊢
        cases hrply : Properties.get rp.programmers inp.programmerReq with
        | some p =>
          simp only [hrply] at h ⊢
          simp only [List.foldl_cons, List.foldl_nil]
          exact (Except.ok.inj h).symm
        | none =>
          simp only [hrply] at h
          exact Except.noConfusion h

theorem listLastGet_split (pre post : List Properties.Store) (k v : Chars) :
    ∀ (i : Nat) (hi : i < (pre ++ post).length),
      (∀ l ∈ pre ++ post, Properties.NodupKeys l) →
      Properties.get ((pre ++ post).get ⟨i, hi⟩) k = some v →
      (∀ (j : Nat) (hj : j < (pre ++ post).length), i < j →
        Properties.containsKey ((pre ++ post).get ⟨j, hj⟩) k = false) →
      (pre.length ≤ i → Properties.listLastGet post k = some v) ∧
      (i < pre.length →
        Properties.listLastGet post k = none ∧
        Properties.listLastGet pre k = some v) := by
  induction pre with
  | nil =>
    intro i hi hnd hv hlater
    refine ⟨fun _ => ?_, fun hc => absurd hc (by simp)⟩
    exact Properties.listLastGet_last post k v i hi hnd hv hlater
  | cons l pre' ih =>
    intro i hi hnd hv hlater
    cases i with
    | zero =>
      have hall : ∀ l' ∈ pre' ++ post, Properties.containsKey l' k = false := by
        intro l' hl'
        obtain ⟨jp, hjp⟩ := List.mem_iff_get.mp hl'
        have h0 := hlater (jp.val + 1) (by simpa using jp.isLt) (Nat.succ_pos _)
        have h2 : Properties.containsKey ((pre' ++ post).get jp) k = false := by
          simpa using h0
        rwa [hjp] at h2
      have hpost : Properties.listLastGet post k = none :=
        Properties.listLastGet_eq_none post k fun l' hm =>
          hall l' (List.mem_append_right _ hm)
      have hpre' : Properties.listLastGet pre' k = none :=
        Properties.listLastGet_eq_none pre' k fun l' hm =>
          hall l' (List.mem_append_left _ hm)
      have hl : Properties.lastGet l k = some v := by
        rw [Properties.lastGet_eq_get_of_nodup l k (hnd l (List.mem_cons_self _ _))]
        exact hv
      refine ⟨fun hc => absurd hc (by simp), fun _ => ⟨hpost, ?_⟩⟩
      simp [Properties.listLastGet, hpre', hl]
    | succ i' =>
      have hi' : i' < (pre' ++ post).length := by simpa using hi
      have hnd' : ∀ l' ∈ pre' ++ post, Properties.NodupKeys l' :=
        fun l' hm => hnd l' (List.mem_cons_of_mem _ hm)
      have hv' : Properties.get ((pre' ++ post).get ⟨i', hi'⟩) k = some v := hv
      have hlater' : ∀ (j : Nat) (hj : j < (pre' ++ post).length), i' < j →
          Properties.containsKey ((pre' ++ post).get ⟨j, hj⟩) k = false := by
        intro j hj hgt
        exact hlater (j + 1) (by simpa using hj) (by omega)
      obtain ⟨c1, c2⟩ := ih i' hi' hnd' hv' hlater'
      constructor
      · intro hc
        have hc2 : pre'.length ≤ i' := by
          simp only [List.length_cons] at hc
          omega
        exact c1 hc2
      · intro hc
        have hc2 : i' < pre'.length := by
          simp only [List.length_cons] at hc
          omega
        obtain ⟨hpost, hpre'⟩ := c2 hc2
        exact ⟨hpost, by simp [Properties.listLastGet, hpre']⟩

/-- C1 (amended): the debug configuration is built by merging the layers
referenced-platform → platform → platform-runtime → board → installed
tools → board-required tools → programmer, last-write-wins per key: for
any key whose last containing layer is at index `i` (no
later layer contains it), `Get` after the merge returns that layer's
value — EXCEPT that when the legacy `arduino:samd` 1.8.8/1.8.9 hotfix
fires, the eight injected hotfix keys override values whose last
occurrence is in layers 1-4 (values from layers 5-7 still win). -/
theorem c1_layer_precedence (inp : DebugInput) (st : Properties.Store) (k v : Chars)
    (hok : mergeDebugLayers inp = .ok st)
    (hnd : ∀ l ∈ allLayers inp, Properties.NodupKeys l)
    (i : Nat) (hi : i < (allLayers inp).length)
    (hv : Properties.get ((allLayers inp).get ⟨i, hi⟩) k = some v)
    (hlater : ∀ (j : Nat) (hj : j < (allLayers inp).length), i < j →
      Properties.containsKey ((allLayers inp).get ⟨j, hj⟩) k = false)
    (hfix : i < (preLayers inp).length → HotfixFires inp →
      k ∉ hotfixProps.map Prod.fst) :
    Properties.get st k = some v := by
  have hst := mergeDebugLayers_ok inp st hok
  obtain ⟨c1a, c1b⟩ :=
    listLastGet_split (preLayers inp) (postLayers inp) k v i hi hnd hv hlater
  rw [hst, Properties.get_foldl_merge]
  by_cases hcase : i < (preLayers inp).length
  · obtain ⟨hpost, hpre⟩ := c1b hcase
    rw [hpost]
    show Properties.get (afterHotfix inp) k = some v
    by_cases hf : HotfixFires inp
    · have hk := hfix hcase hf
      unfold afterHotfix
      rw [applyHotfix_get_skip _ _ _ hk]
      unfold baseStore
      rw [Properties.get_foldl_merge, hpre]
    · rw [applyHotfix_not_fires inp hf]
      unfold baseStore
      rw [Properties.get_foldl_merge, hpre]
  · have hpost := c1a (Nat.le_of_not_lt hcase)
    rw [hpost]

/-- C1 counterexample to the claim as stated: `debug.toolchain` is present
in the referenced-platform layer (index 0, `refval`) and in the
later-listed board layer (index 3, `boardval`), and in no later layer (the
merge has exactly four layers), yet `Get` after the merge returns the
hotfix value `gcc`, not the board layer's `boardval`. -/
theorem c1_counterexample :
    Properties.get ((allLayers c1CexInput).get ⟨0, by decide⟩)
      (str "debug.toolchain") = some (str "refval") ∧
    Properties.get ((allLayers c1CexInput).get ⟨3, by decide⟩)
      (str "debug.toolchain") = some (str "boardval") ∧
    (allLayers c1CexInput).length = 4 ∧
    (match mergeDebugLayers c1CexInput with
      | .ok st => Properties.get st (str "debug.toolchain")
      | .error _ => none) = some (str "gcc") ∧
    str "gcc" ≠ str "boardval" := by
  decide

/-- Witness for C1: the board layer (last containing layer) wins for key
`a`. -/
theorem c1_layer_precedence_witness :
    Properties.get [(str "a", str "2")] (str "a") = some (str "2") := by
  have hlen : (allLayers c1WitnessInput).length = 3 := by decide
  exact c1_layer_precedence c1WitnessInput [(str "a", str "2")] (str "a") (str "2")
    (by decide) (by decide) 2 (by decide) (by decide)
    (fun j hj hgt => by
      rw [hlen] at hj
      exact absurd hj (by omega))
    (fun hpre hf => absurd hf (by decide))
